import Mathlib

/-!
Verification of the md-2-spa Obsidian-vault → HTML converter.

This file is a shallow embedding of the manifest builder (`manifest.py`),
the link resolver (`resolver.py`), the renderer helpers (`renderer.py`)
and the front-matter extractor (`frontmatter.py`), together with theorems
about the embedded definitions.

Strings are modelled as Lean `String`/`List Char`; Python string
operations (`lower`, `strip`, `title`, regular expressions) are embedded
character by character over the ASCII fragment that the converter
manipulates.  Python dicts (which preserve insertion order and overwrite
in place) are modelled as association lists with insert-or-overwrite
semantics.
-/

/-! ## Character helpers (ASCII fragment of the Python string methods) -/

/-- Python `str.lower` on one character (ASCII fragment): code points
65–90 are the uppercase letters `A`–`Z`, shifted by 32 to `a`–`z`. -/
def pyLower (c : Char) : Char :=
  if 65 ≤ c.toNat ∧ c.toNat ≤ 90 then Char.ofNat (c.toNat + 32) else c

/-- Python `str.upper` on one character (ASCII fragment): code points
97–122 are the lowercase letters `a`–`z`. -/
def pyUpper (c : Char) : Char :=
  if 97 ≤ c.toNat ∧ c.toNat ≤ 122 then Char.ofNat (c.toNat - 32) else c

/-- Python regex `\s` / `str.strip()` whitespace (ASCII fragment): space,
tab, newline, carriage return, vertical tab, form feed. -/
def isPyWs (c : Char) : Bool :=
  decide (c.toNat = 32 ∨ c.toNat = 9 ∨ c.toNat = 10 ∨ c.toNat = 13 ∨
    c.toNat = 11 ∨ c.toNat = 12)

/-- ASCII lowercase letter (`a`–`z`, code points 97–122). -/
def isLowerAlpha (c : Char) : Bool := decide (97 ≤ c.toNat ∧ c.toNat ≤ 122)

/-- ASCII uppercase letter (`A`–`Z`, code points 65–90). -/
def isUpperAlpha (c : Char) : Bool := decide (65 ≤ c.toNat ∧ c.toNat ≤ 90)

/-- ASCII digit (`0`–`9`, code points 48–57). -/
def isDigitCh (c : Char) : Bool := decide (48 ≤ c.toNat ∧ c.toNat ≤ 57)

/-- Python `str.isalpha` (ASCII fragment), the word-boundary test of `str.title`. -/
def pyIsAlpha (c : Char) : Bool := isLowerAlpha c || isUpperAlpha c

/-- Python regex `\w` (ASCII fragment). -/
def isWordCh (c : Char) : Bool := isLowerAlpha c || isUpperAlpha c || isDigitCh c || c == '_'

/-! ## Generic list-of-char operations -/

/-- Drop the characters satisfying `p` from the end of a list. -/
def dropEndWhile (p : Char → Bool) (l : List Char) : List Char :=
  (l.reverse.dropWhile p).reverse

/-- Python `str.strip(chars)`: drop characters satisfying `p` from both ends. -/
def pyStripChars (p : Char → Bool) (l : List Char) : List Char :=
  dropEndWhile p (l.dropWhile p)

/-- Python `str.strip()` (whitespace strip) on a string. -/
def pyStrip (s : String) : String := ⟨pyStripChars isPyWs s.data⟩

/-- Python `str.lower()` on a string (ASCII fragment). -/
def pyStrLower (s : String) : String := ⟨s.data.map pyLower⟩

/-- Replace every maximal run of characters satisfying `p` by the single
character `rep`.  The boolean argument records whether the previous
character was part of a run.  This is `re.sub(r"P+", rep, ...)` for a
character class `P`. -/
def collapseRuns (p : Char → Bool) (rep : Char) : Bool → List Char → List Char
  | _, [] => []
  | inRun, c :: rest =>
    if p c then
      if inRun then collapseRuns p rep true rest
      else rep :: collapseRuns p rep true rest
    else c :: collapseRuns p rep false rest

/-- Python `str.split(sep)` for a one-character separator: splits at every
occurrence, keeping empty parts, and always returns at least one part. -/
def splitOnCh (sep : Char) : List Char → List (List Char)
  | [] => [[]]
  | c :: rest =>
    match splitOnCh sep rest with
    | [] => [[c]]
    | p :: ps => if c == sep then [] :: p :: ps else (c :: p) :: ps

/-- Break a list at the first occurrence of `c`: returns the part before
and the part after the separator (separator removed).  If `c` does not
occur the whole list is returned as the first component. -/
def breakAtCh (c : Char) : List Char → List Char × List Char
  | [] => ([], [])
  | d :: rest =>
    if d == c then ([], rest)
    else
      let r := breakAtCh c rest
      (d :: r.1, r.2)

/-- Index (from the right) of the last `'.'` in a list, if any;
Python `str.rfind('.')` restricted to a found result. -/
def lastDotIdx : List Char → Option Nat
  | [] => none
  | c :: rest =>
    match lastDotIdx rest with
    | some i => some (i + 1)
    | none => if c == '.' then some 0 else none

/-! ## SlugEngine: `slugify`, `make_id`, `make_title` (manifest.py) -/

/-- Character class kept by `slugify`: `[a-z0-9\s\-_/]` (applied after
lowercasing, so uppercase letters are already gone). -/
def isSlugKeep (c : Char) : Bool :=
  isLowerAlpha c || isDigitCh c || isPyWs c || c == '-' || c == '_' || c == '/'

/-- Characters collapsed to a hyphen by `slugify`: the class `[\s_]`. -/
def isWsU (c : Char) : Bool := isPyWs c || c == '_'

/-- Hyphen test, for the `-+` collapse and the final `strip("-")`. -/
def isHyphen (c : Char) : Bool := c == '-'

/-- Model of `slugify` on a character list: strip whitespace, lowercase, drop
characters outside `[a-z0-9\s\-_/]`, collapse `[\s_]+` runs to `-`,
collapse `-+` runs to `-`, strip leading/trailing hyphens. -/
def slugifyL (l : List Char) : List Char :=
  let s1 := pyStripChars isPyWs l
  let s2 := (s1.map pyLower).filter isSlugKeep
  let s3 := collapseRuns isWsU '-' false s2
  let s4 := collapseRuns isHyphen '-' false s3
  pyStripChars isHyphen s4

/-- Model of `manifest.slugify`: convert a string to a URL-friendly kebab-case slug. -/
def slugify (text : String) : String := ⟨slugifyL text.data⟩

/-- Model of `manifest.make_id`: create a manifest node ID from a slug and a type. -/
def make_id (slug : String) (node_type : String) : String :=
  let suffix :=
    if node_type = "directory" then "-dir"
    else if node_type = "graphics" then "-graphics" else "-file"
  let parts := splitOnCh '/' (pyStripChars (fun c => c == '/') slug.data)
  if node_type = "graphics" then
    (if parts.length ≥ 2 then String.mk (parts.getD (parts.length - 2) []) else "root") ++ suffix
  else
    let lastP := parts.getLastD []
    (if lastP ≠ [] then String.mk lastP else String.mk (parts.headD [])) ++ suffix

/-- Python `str.title()` (ASCII fragment): a letter is uppercased when the
previous character is not a letter, lowercased otherwise.  The boolean
argument records whether the previous character was a letter. -/
def titleCase : Bool → List Char → List Char
  | _, [] => []
  | prevAlpha, c :: rest =>
    (if prevAlpha then pyLower c else pyUpper c) :: titleCase (pyIsAlpha c) rest

/-- Model of `manifest.make_title`: derive a display title from a file or directory
name by replacing underscores and hyphens with spaces and title-casing. -/
def make_title (name : String) : String :=
  ⟨titleCase false ((name.data.map fun c => if c == '_' then ' ' else c).map
      fun c => if c == '-' then ' ' else c)⟩

/-! ## Filesystem model -/

/-- A filesystem entry of the vault: a file (with its name) or a directory
(with its name and its entries, in arbitrary on-disk order). -/
inductive FS where
  | file (name : String)
  | dir (name : String) (entries : List FS)

/-- Name of an entry (`path.name`). -/
def FS.name : FS → String
  | .file n => n
  | .dir n _ => n

/-- Model of `path.is_dir()`. -/
def FS.isDir : FS → Bool
  | .file _ => false
  | .dir _ _ => true

/-- Python `Path.suffix` (ASCII model of CPython pathlib): the part of the
name from its last dot, provided that dot is neither the first nor the
last character; otherwise the empty string. -/
def pySuffix (name : String) : String :=
  match lastDotIdx name.data with
  | some i => if 0 < i ∧ i < name.data.length - 1 then ⟨name.data.drop i⟩ else ""
  | none => ""

/-- Python `Path.stem`: the name with `pySuffix` removed. -/
def pyStem (name : String) : String :=
  match lastDotIdx name.data with
  | some i => if 0 < i ∧ i < name.data.length - 1 then ⟨name.data.take i⟩ else name
  | none => name

/-! ## Constants and per-entry predicates (manifest.py) -/

def IGNORE_DIRS : List String := [".obsidian", ".excalidraw"]

def IGNORE_FILES : List String := [".DS_Store"]

def GRAPHICS_DIR_NAME : String := "graphics"

def IMAGE_EXTENSIONS : List String := [".png", ".jpg", ".jpeg", ".gif", ".svg", ".webp", ".bmp"]

/-- Model of `manifest.has_readme`: the first file entry whose lowercased name is
`readme.md`, if any (the walker only tests the result for `None`). -/
def has_readme : List FS → Option String
  | [] => none
  | .file n :: rest => if pyStrLower n == "readme.md" then some n else has_readme rest
  | .dir _ _ :: rest => has_readme rest

/-- Model of `manifest.is_graphics_dir`: the lowercased directory name equals
`"graphics"`. -/
def is_graphics_dir (name : String) : Bool := pyStrLower name == GRAPHICS_DIR_NAME

/-- Model of `manifest.should_ignore`. -/
def should_ignore (e : FS) : Bool :=
  if IGNORE_FILES.contains e.name then true
  else if e.isDir && IGNORE_DIRS.contains e.name then true
  else false

/-- Code-point lexicographic comparison of character lists (Python string
`<=`). -/
def charListLe : List Char → List Char → Bool
  | [], _ => true
  | _ :: _, [] => false
  | a :: as, b :: bs => if a == b then charListLe as bs else decide (a < b)

/-- First component of the sort key of the walker: `not entry.is_dir()`,
so directories sort before files. -/
def entryIsFile (e : FS) : Bool := !e.isDir

/-- The walker sort relation, Python key `(not e.is_dir(), e.name.lower())`
compared lexicographically. -/
def entryLe (a b : FS) : Bool :=
  if entryIsFile a == entryIsFile b then
    charListLe (pyStrLower a.name).data (pyStrLower b.name).data
  else entryIsFile a == false

/-- The walker entry ordering: `sorted(dir_path.iterdir(), key=...)`.
Python `sorted` is a stable ascending sort, which insertion sort with a
total `≤` relation reproduces. -/
def sortEntries (es : List FS) : List FS :=
  @List.insertionSort FS (fun a b => entryLe a b = true)
    (fun a b => instDecidableEqBool (entryLe a b) true) es

/-- Name ordering used by `collect_assets` (`sorted(path.iterdir())`
compares `Path` objects, i.e. the names, code-point-wise). -/
def assetNameLe (a b : FS) : Bool := charListLe a.name.data b.name.data

/-- Model of `manifest.collect_assets`: names of the image files of a graphics
directory, in sorted order. -/
def collect_assets (entries : List FS) : List String :=
  ((@List.insertionSort FS (fun a b => assetNameLe a b = true)
      (fun a b => instDecidableEqBool (assetNameLe a b) true) entries).filter
    fun e => !e.isDir && IMAGE_EXTENSIONS.contains (pyStrLower (pySuffix e.name))).map FS.name

/-! ## Manifest nodes and the ordered dict model -/

/-- A manifest node: the three dict shapes emitted by the walker. -/
inductive Node where
  | dir (id title slug content_path : String) (children : List String)
  | file (id title slug content_path : String)
  | graphics (id slug content_path : String) (assets : List String)
deriving DecidableEq

def Node.id : Node → String
  | .dir i _ _ _ _ => i
  | .file i _ _ _ => i
  | .graphics i _ _ _ => i

def Node.slug : Node → String
  | .dir _ _ s _ _ => s
  | .file _ _ s _ => s
  | .graphics _ s _ _ => s

def Node.content_path : Node → String
  | .dir _ _ _ cp _ => cp
  | .file _ _ _ cp => cp
  | .graphics _ _ cp _ => cp

/-- Model of `node.get("title", "")`: graphics nodes carry no title. -/
def Node.titleGet : Node → String
  | .dir _ t _ _ _ => t
  | .file _ t _ _ => t
  | .graphics _ _ _ _ => ""

def Node.isGraphics : Node → Bool
  | .graphics _ _ _ _ => true
  | _ => false

/-- Ordered association list modelling a Python dict: key lookup. -/
def alookup (k : String) : List (String × α) → Option α
  | [] => none
  | p :: rest => if p.1 == k then some p.2 else alookup k rest

/-- Python `k in d`. -/
def amem (k : String) (d : List (String × α)) : Bool := d.any fun p => p.1 == k

/-- Python `d[k] = v`: overwrite in place if the key exists (keeping its
position), append otherwise. -/
def aset (d : List (String × α)) (k : String) (v : α) : List (String × α) :=
  if amem k d then d.map fun p => if p.1 == k then (k, v) else p
  else d ++ [(k, v)]

/-- Python `d.update(other)`: assign the items of `other` in order. -/
def aupdate (d other : List (String × α)) : List (String × α) :=
  other.foldl (fun acc p => aset acc p.1 p.2) d

/-- The accumulated dict of nodes, keyed by id. -/
abbrev NodeMap := List (String × Node)

/-! ## The recursive walker (manifest.walk_directory)

`walk_directory` in the source takes a directory path; here a directory is
passed as its name, its entries and its path relative to the vault root
(the string `str(dir_path.relative_to(vault_root))`, only used when the
directory is not the root).  `walkEntries` is the entry loop of the walker with
its two accumulators (`all_nodes`, `children_ids`), and `stepEntry` is one
iteration of that loop. -/

mutual

/-- One iteration of the entry loop of the walker: ignore reserved names; a
graphics directory contributes a graphics node when it has assets; another
directory is recursed into and its subgraph spliced in when eligible; a
markdown file (except the readme marker itself) contributes a file node,
regenerating its id on collision. -/
def stepEntry (isRoot : Bool) (dirSlug relPath : String)
    (acc : NodeMap × List String) (e : FS) : NodeMap × List String :=
  if should_ignore e then acc else
  match e with
  | .dir dname dentries =>
    if is_graphics_dir dname then
      let assets := collect_assets dentries
      if assets.isEmpty then acc
      else
        let g_slug := if isRoot then "graphics" else dirSlug ++ "/graphics"
        let g_id := make_id g_slug "graphics"
        let gnode := Node.graphics g_id g_slug ("/" ++ g_slug ++ "/") assets
        (aset acc.1 g_id gnode, acc.2 ++ [g_id])
    else
      let childRel := if isRoot then dname else relPath ++ "/" ++ dname
      match walk_directory false childRel none dname dentries with
      | none => acc
      | some r => (aupdate acc.1 r.2, acc.2 ++ [r.1.id])
  | .file fname =>
    if pyStrLower (pySuffix fname) == ".md" then
      if pyStrLower fname == "readme.md" then acc
      else
        let file_stem := pyStem fname
        let file_slug := if isRoot then slugify file_stem
                         else dirSlug ++ "/" ++ slugify file_stem
        let fid0 := make_id file_slug "file"
        let file_id := if amem fid0 acc.1 then slugify file_slug ++ "-file" else fid0
        let fnode := Node.file file_id (make_title file_stem) file_slug
          ("/" ++ file_slug ++ ".html")
        (aset acc.1 file_id fnode, acc.2 ++ [file_id])
    else acc
termination_by sizeOf e + 2
decreasing_by
  simp only [FS.dir.sizeOf_spec]
  omega

/-- The loop of the walker over the (sorted) entries of a directory, threading
the `(all_nodes, children_ids)` accumulator left to right. -/
def walkEntries (isRoot : Bool) (dirSlug relPath : String)
    (acc : NodeMap × List String) : List FS → NodeMap × List String
  | [] => acc
  | e :: rest => walkEntries isRoot dirSlug relPath (stepEntry isRoot dirSlug relPath acc e) rest
termination_by l => sizeOf l + 1
decreasing_by
  · simp only [List.cons.sizeOf_spec]
    have h1 : (1:Nat) ≤ sizeOf rest := by
      cases rest
      · simp
      · simp only [List.cons.sizeOf_spec]; omega
    omega
  · simp only [List.cons.sizeOf_spec]
    omega

/-- Model of `manifest.walk_directory`: `none` when the directory has no readme
marker; otherwise the directory node together with the accumulated node
dict of the whole subtree (the directory node itself assigned last). -/
def walk_directory (isRoot : Bool) (relPath : String) (rootTitle : Option String)
    (name : String) (entries : List FS) : Option (Node × NodeMap) :=
  match has_readme entries with
  | none => none
  | some _ =>
    let dir_slug := if isRoot then "root" else slugify relPath
    let dir_id := if isRoot then "root-dir" else make_id dir_slug "directory"
    let title := if isRoot then
        (match rootTitle with
         | some t => if t ≠ "" then t else "Root"
         | none => "Root")
      else make_title name
    let content_path := if isRoot then "/readme.html" else "/" ++ dir_slug ++ "/README.html"
    let res := walkEntries isRoot dir_slug relPath ([], []) (sortEntries entries)
    let dir_node := Node.dir dir_id title dir_slug content_path res.2
    some (dir_node, aset res.1 dir_id dir_node)
termination_by sizeOf entries + 2
decreasing_by
  have hperm : sizeOf (sortEntries entries) = sizeOf entries :=
    (List.perm_insertionSort _ entries).sizeOf_eq_sizeOf
  omega

end

/-- The manifest: root id plus the flat id-keyed node dict. -/
structure Manifest where
  rootId : String
  items : NodeMap
deriving DecidableEq

/-- Model of `manifest.generate_manifest`: walk the vault root (the fatal-error
paths of the source, invalid root and missing root readme, surface here as
`none`). -/
def generate_manifest (rootName : String) (entries : List FS) (title : String) :
    Option Manifest :=
  (walk_directory true "" (some title) rootName entries).map fun r => ⟨r.1.id, r.2⟩

/-! ## LinkResolver (resolver.py) -/

/-- Model of `resolver.build_title_index`: lowercase title → list of matching nodes,
graphics excluded (`setdefault(key, []).append(node)` keeps insertion
order and appends at an existing key). -/
def tindexAdd (d : List (String × List Node)) (k : String) (n : Node) :
    List (String × List Node) :=
  if amem k d then d.map fun p => if p.1 == k then (p.1, p.2 ++ [n]) else p
  else d ++ [(k, [n])]

def build_title_index (m : Manifest) : List (String × List Node) :=
  m.items.foldl
    (fun idx p =>
      if p.2.isGraphics then idx
      else tindexAdd idx (pyStrLower p.2.titleGet) p.2)
    []

/-- Model of `resolver.build_slug_index`: slug → node, graphics excluded (a dict
comprehension, so a later node with the same slug overwrites). -/
def build_slug_index (m : Manifest) : List (String × Node) :=
  m.items.foldl
    (fun idx p => if p.2.isGraphics then idx else aset idx p.2.slug p.2)
    []

/-- Model of `resolver.build_asset_index`: asset filename → the owning graphics
content_path prefix; on duplicate filenames the last one visited wins. -/
def build_asset_index (m : Manifest) : List (String × String) :=
  m.items.foldl
    (fun idx p =>
      match p.2 with
      | .graphics _ _ cp assets => assets.foldl (fun ix a => aset ix a cp) idx
      | _ => idx)
    []

/-- Python `display or fallback` for the optional display override:
`None` and the empty string are falsy. -/
def pyOrDisplay (display : Option String) (fallback : String) : String :=
  match display with
  | some s => if s ≠ "" then s else fallback
  | none => fallback

/-- Model of `resolver.resolve_wiki_link`: resolve a wiki-link target to
`(href, display_text)`, trying (1) the literal slug key with spaces
replaced by hyphens and case-folded, (2) a unique case-insensitive title
match, (3) the fully slugified target as a slug key, and (4) the broken
link fallback. -/
def resolve_wiki_link (target : String) (title_index : List (String × List Node))
    (slug_index : List (String × Node)) : String × String :=
  let pipeSplit : String × Option String :=
    if target.data.contains '|' then
      let r := breakAtCh '|' target.data
      (⟨r.1⟩, some ⟨r.2⟩)
    else (target, none)
  let display := pipeSplit.2
  let target_clean := pyStrip pipeSplit.1
  let target_lower := pyStrLower target_clean
  let slug_key := pyStrLower ⟨target_clean.data.map fun c => if c == ' ' then '-' else c⟩
  match alookup slug_key slug_index with
  | some node => (node.content_path, pyOrDisplay display node.titleGet)
  | none =>
    match alookup target_lower title_index with
    | some [node] => (node.content_path, pyOrDisplay display node.titleGet)
    | _ =>
      match alookup (slugify target_clean) slug_index with
      | some node => (node.content_path, pyOrDisplay display node.titleGet)
      | none => ("#", pyOrDisplay display target_clean)

/-- The part of a path after its last slash (`rsplit("/", 1)[-1]`),
assuming a slash occurs. -/
def afterLastSlash (l : List Char) : List Char :=
  ((breakAtCh '/' l.reverse).1).reverse

/-- Model of `resolver.resolve_image_embed`: strip whitespace, strip any directory
prefix, look up the basename in the asset index, and fall back to the
root graphics route on a miss. -/
def resolve_image_embed (filename : String) (asset_index : List (String × String)) :
    String :=
  let fn := pyStrip filename
  let basename : String := if fn.data.contains '/' then ⟨afterLastSlash fn.data⟩ else fn
  match alookup basename asset_index with
  | some pfx => pfx ++ basename
  | none => "/graphics/" ++ basename

/-! ## MarkupEngine renderer helpers (renderer.py)

The markdown engine itself (mistune) is an external library; the
repository code modelled here is the post-render sanitization pass
(`_sanitized_call`), the `block_code` and `heading` renderer overrides and
`slugify_heading`.  `escape_text` is the documented mistune `escape`
helper (`&`, `<`, `>`, `"` → entities, in that order), the narrow external
interface `block_code` relies on. -/

/-- Replace every occurrence of the non-empty pattern `pat` by `rep`,
scanning left to right (Python `str.replace`).  The fuel argument is the
input length, consumed at least one character per step. -/
def replaceSubF (pat rep : List Char) : Nat → List Char → List Char
  | _, [] => []
  | 0, l => l
  | fuel + 1, c :: rest =>
    if pat.isPrefixOf (c :: rest) ∧ pat ≠ [] then
      rep ++ replaceSubF pat rep fuel ((c :: rest).drop pat.length)
    else c :: replaceSubF pat rep fuel rest

def replaceSub (pat rep l : List Char) : List Char := replaceSubF pat rep l.length l

/-- mistune `escape`: HTML-escape `&`, `<`, `>`, `"` (ampersand first). -/
def escape_text (s : String) : String :=
  ⟨replaceSub "\"".data "&quot;".data
    (replaceSub ">".data "&gt;".data
      (replaceSub "<".data "&lt;".data
        (replaceSub "&".data "&amp;".data s.data)))⟩

/-- Python `str.split()` with no argument: whitespace-separated tokens,
empties dropped.  The accumulator holds the current token reversed. -/
def splitWsAux : List Char → List Char → List (List Char)
  | [], cur => if cur.isEmpty then [] else [cur.reverse]
  | c :: rest, cur =>
    if isPyWs c then
      if cur.isEmpty then splitWsAux rest []
      else cur.reverse :: splitWsAux rest []
    else splitWsAux rest (c :: cur)

/-- Model of `renderer.block_code` override: escape the code and wrap it in the
copy-button container, with a language label and class when an `info`
string is present (`if info:` — `None` and `""` are falsy; the language is
the first whitespace-separated token of `info`). -/
def block_code (code : String) (info : Option String) : String :=
  let escaped := escape_text code
  let pair : String × String :=
    match info with
    | some i =>
      if i ≠ "" then
        let lang : String := ⟨(splitWsAux i.data []).headD []⟩
        (" class=\"language-" ++ lang ++ "\"",
         "<span class=\"code-lang\">" ++ lang ++ "</span>")
      else ("", "")
    | none => ("", "")
  "<div class=\"code-block\">" ++ pair.2 ++
    "<button class=\"copy-btn\" aria-label=\"Copy code\">Copy</button><pre><code" ++
    pair.1 ++ ">" ++ escaped ++ "</code></pre></div>\n"

/-- The tag-stripping step of `renderer.slugify_heading`:
`re.sub` of the pattern `<[^>]+>` with the empty replacement.  At a `<`, a maximal run of at least one
non-`>` character followed by `>` is removed; otherwise the character is
kept.  Fuel is the input length. -/
def stripHtmlTagsF : Nat → List Char → List Char
  | _, [] => []
  | 0, l => l
  | fuel + 1, c :: rest =>
    if c == '<' then
      let run := rest.takeWhile fun d => !(d == '>')
      if !run.isEmpty ∧ run.length < rest.length then
        stripHtmlTagsF fuel (rest.drop (run.length + 1))
      else c :: stripHtmlTagsF fuel rest
    else c :: stripHtmlTagsF fuel rest

/-- Character class kept by `slugify_heading`: `[a-z0-9-]`. -/
def isHeadKeep (c : Char) : Bool := isLowerAlpha c || isDigitCh c || c == '-'

/-- Model of `renderer.slugify_heading`: strip inline HTML tags, lowercase, replace
runs outside `[a-z0-9-]` with hyphens, collapse `-{2,}` runs, trim
hyphens. -/
def slugify_heading (text : String) : String :=
  let s1 := stripHtmlTagsF text.data.length text.data
  let s2 := s1.map pyLower
  let s3 := collapseRuns (fun c => !isHeadKeep c) '-' false s2
  let s4 := collapseRuns isHyphen '-' false s3
  ⟨pyStripChars isHyphen s4⟩

/-- The heading-anchor HTML emitted by the `heading` override. -/
def headingHtml (slug text : String) (level : Nat) : String :=
  "<h" ++ toString level ++ " id=\"" ++ slug ++
    "\"><a class=\"heading-anchor\" href=\"#" ++ slug ++ "\" data-link>" ++
    text ++ "</a></h" ++ toString level ++ ">\n"

/-- The `heading_slug_counts` dict of `create_parser`: slug → count. -/
abbrev CountMap := List (String × Nat)

/-- Model of `renderer.heading` override: slug the heading text and deduplicate
against `heading_slug_counts`, which in the source is created once per
`create_parser` call and therefore shared by every document rendered by
that parser.  Returns the rendered heading and the updated counter dict. -/
def heading (counts : CountMap) (text : String) (level : Nat) : String × CountMap :=
  let slug := slugify_heading text
  match alookup slug counts with
  | some k =>
    let counts2 := aset counts slug (k + 1)
    (headingHtml (slug ++ "-" ++ toString (k + 1)) text level, counts2)
  | none => (headingHtml slug text level, aset counts slug 0)

/-! ### The sanitization pass (`_sanitized_call`) -/

/-- Case-insensitive prefix test (`re.IGNORECASE`, ASCII fragment). -/
def ciStartsWith (pat l : List Char) : Bool :=
  decide (pat.length ≤ l.length) && ((l.take pat.length).map pyLower == pat.map pyLower)

/-- Remainder of `l` after the first case-insensitive occurrence of `pat`
(the lazy `.*?pat` search), if any. -/
def findCi (pat : List Char) : List Char → Option (List Char)
  | [] => none
  | c :: rest =>
    if ciStartsWith pat (c :: rest) then some ((c :: rest).drop pat.length)
    else findCi pat rest

/-- Match of `<tag[^>]*>.*?</tag>` (DOTALL, IGNORECASE) anchored at the
head of `l`: returns the remainder after the closing tag on success. -/
def matchTagAt (tag : List Char) (l : List Char) : Option (List Char) :=
  if ciStartsWith ('<' :: tag) l then
    let r1 := l.drop (tag.length + 1)
    let run := r1.takeWhile fun d => !(d == '>')
    if run.length < r1.length then
      findCi ('<' :: '/' :: (tag ++ ['>'])) (r1.drop (run.length + 1))
    else none
  else none

/-- One `re.sub` pass of `<tag[^>]*>.*?</tag>` with empty replacement: leftmost
non-overlapping matches removed in a single scan.  Fuel is the input
length (each step consumes at least one character). -/
def subTagsF (tag : List Char) : Nat → List Char → List Char
  | _, [] => []
  | 0, l => l
  | fuel + 1, c :: rest =>
    match matchTagAt tag (c :: rest) with
    | some r => subTagsF tag fuel r
    | none => c :: subTagsF tag fuel rest

def subTags (tag : String) (l : List Char) : List Char := subTagsF tag.data l.length l

/-- Match of `\s+on\w+\s*=\s*q[^q]*q` (IGNORECASE) anchored at the head of
`l`, where `q` is the quote character: returns the remainder after the
closing quote on success. -/
def matchAttrAt (q : Char) (l : List Char) : Option (List Char) :=
  match l with
  | [] => none
  | c :: _ =>
    if isPyWs c then
      let r1 := l.dropWhile isPyWs
      if ciStartsWith ['o', 'n'] r1 then
        let r2 := r1.drop 2
        let w := r2.takeWhile isWordCh
        if !w.isEmpty then
          match (r2.drop w.length).dropWhile isPyWs with
          | '=' :: r4 =>
            match r4.dropWhile isPyWs with
            | c2 :: r6 =>
              if c2 == q then
                let body := r6.takeWhile fun d => !(d == q)
                if body.length < r6.length then some (r6.drop (body.length + 1))
                else none
              else none
            | [] => none
          | _ => none
        else none
      else none
    else none

/-- One `re.sub` pass of `\s+on\w+\s*=\s*q[^q]*q` with empty replacement. -/
def subAttrsF (q : Char) : Nat → List Char → List Char
  | _, [] => []
  | 0, l => l
  | fuel + 1, c :: rest =>
    match matchAttrAt q (c :: rest) with
    | some r => subAttrsF q fuel r
    | none => c :: subAttrsF q fuel rest

def subAttrs (q : Char) (l : List Char) : List Char := subAttrsF q l.length l

/-- Model of `renderer._sanitized_call` post-pass: strip `style`, `script` and
`iframe` elements and quoted `on*` event-handler attributes from the
rendered HTML, in the order of the five `re.sub` calls of the source. -/
def sanitize_html (html : String) : String :=
  ⟨subAttrs (Char.ofNat 39)
    (subAttrs '"'
      (subTags "iframe"
        (subTags "script"
          (subTags "style" html.data))))⟩

/-! ## Front-matter extraction (frontmatter.py)

`yaml.safe_load` is an external library; it is abstracted as a parameter
`parse` returning either a parse error or a YAML value.  Date and datetime
scalars are carried as their ISO strings, which is all `_normalise` needs
from them. -/

/-- A YAML value as `extract_frontmatter` distinguishes them. -/
inductive Yaml where
  | str (s : String)
  | int (n : Int)
  | bool (b : Bool)
  | null
  | date (iso : String)
  | datetime (iso : String)
  | list (xs : List Yaml)
  | dict (kvs : List (String × Yaml))

/-- Outcome of `yaml.safe_load`: a `YAMLError` or a value. -/
inductive YamlResult where
  | err
  | val (v : Yaml)

mutual

/-- Model of `frontmatter._normalise` / `_normalise_values`: convert date and
datetime values to ISO strings, recursively. -/
def normaliseYaml : Yaml → Yaml
  | .date iso => .str iso
  | .datetime iso => .str iso
  | .list xs => .list (normaliseList xs)
  | .dict kvs => .dict (normaliseKVs kvs)
  | v => v

def normaliseList : List Yaml → List Yaml
  | [] => []
  | v :: rest => normaliseYaml v :: normaliseList rest

def normaliseKVs : List (String × Yaml) → List (String × Yaml)
  | [] => []
  | (k, v) :: rest => (k, normaliseYaml v) :: normaliseKVs rest

end

/-- Candidate openings for the front-matter regex
`\A---\s*\n(.*?\n)---\s*\n?`: given the text after the leading `---`, the
suffixes that follow each `\n` inside the leading whitespace run, ordered
latest newline first (the backtracking order of the greedy `\s*`). -/
def openRests : List Char → List (List Char)
  | [] => []
  | c :: rest =>
    if isPyWs c then openRests rest ++ (if c == '\n' then [rest] else [])
    else []

/-- The lazy group `(.*?\n)` followed by `---`: scan for the first newline
directly followed by `---`; returns the group (including its newline) and
the remainder after that `---`. -/
def findClose : List Char → Option (List Char × List Char)
  | [] => none
  | c :: rest =>
    if c == '\n' ∧ "---".data.isPrefixOf rest then some ([c], rest.drop 3)
    else (findClose rest).map fun r => (c :: r.1, r.2)

/-- Try the opening candidates in backtracking order; on success the match
ends after the trailing `\s*` of the pattern (`\n?` then matches the empty
string), so the body is the remainder with leading whitespace dropped. -/
def fmTry : List (List Char) → Option (List Char × List Char)
  | [] => none
  | gs :: more =>
    match findClose gs with
    | some r => some (r.1, r.2.dropWhile isPyWs)
    | none => fmTry more

/-- The anchored match of `_FRONTMATTER_RE` against the whole text:
returns `(raw_yaml, body_after_match)` on a match. -/
def fmMatch (text : List Char) : Option (List Char × List Char) :=
  if "---".data.isPrefixOf text then fmTry (openRests (text.drop 3))
  else none

/-- Model of `frontmatter.extract_frontmatter`, parameterized by the external YAML
parser: no regex match, a parse error, or a non-dict value all yield
`({}, original_text)`; a dict yields its normalised items and the body
after the front-matter block. -/
def extract_frontmatter (parse : String → YamlResult) (text : String) :
    List (String × Yaml) × String :=
  match fmMatch text.data with
  | none => ([], text)
  | some m =>
    match parse ⟨m.1⟩ with
    | .err => ([], text)
    | .val v =>
      match v with
      | .dict kvs => (normaliseKVs kvs, ⟨m.2⟩)
      | _ => ([], text)

/-! ## Predicates used only in the statements below -/

/-- Substring test: does `pat` occur contiguously in the list? -/
def containsSub (pat : List Char) : List Char → Bool
  | [] => pat.isEmpty
  | c :: rest => pat.isPrefixOf (c :: rest) || containsSub pat rest

/-- The output alphabet of `slugify`: lowercase letters, digits, hyphen,
slash. -/
def isSlugOut (c : Char) : Bool :=
  isLowerAlpha c || isDigitCh c || c == '-' || c == '/'

/-- Adjacent-character relation ruling out a double hyphen. -/
def NoHH (a b : Char) : Prop := isHyphen a = false ∨ isHyphen b = false

/-! ## Supporting lemmas: character classes -/

theorem toNat_of_eq_hyphen {c : Char} (h : c = '-') : c.toNat = 45 := by
  subst h; rfl

theorem toNat_of_eq_slash {c : Char} (h : c = '/') : c.toNat = 47 := by
  subst h; rfl

theorem slugOut_ranges {c : Char} (h : isSlugOut c = true) :
    (97 ≤ c.toNat ∧ c.toNat ≤ 122) ∨ (48 ≤ c.toNat ∧ c.toNat ≤ 57) ∨
      c.toNat = 45 ∨ c.toNat = 47 := by
  simp only [isSlugOut, Bool.or_eq_true, beq_iff_eq, isLowerAlpha, isDigitCh,
    decide_eq_true_eq] at h
  rcases h with ((h | h) | h) | h
  · exact Or.inl h
  · exact Or.inr (Or.inl h)
  · exact Or.inr (Or.inr (Or.inl (toNat_of_eq_hyphen h)))
  · exact Or.inr (Or.inr (Or.inr (toNat_of_eq_slash h)))

theorem slugOut_not_ws {c : Char} (h : isSlugOut c = true) : isPyWs c = false := by
  have hr := slugOut_ranges h
  simp only [isPyWs, decide_eq_false_iff_not]
  omega

theorem slugOut_pyLower {c : Char} (h : isSlugOut c = true) : pyLower c = c := by
  have hr := slugOut_ranges h
  rw [pyLower, if_neg]
  omega

theorem slugOut_keep {c : Char} (h : isSlugOut c = true) : isSlugKeep c = true := by
  simp only [isSlugOut, Bool.or_eq_true, beq_iff_eq] at h
  simp only [isSlugKeep, Bool.or_eq_true, beq_iff_eq]
  rcases h with ((h | h) | h) | h
  · exact Or.inl (Or.inl (Or.inl (Or.inl (Or.inl h))))
  · exact Or.inl (Or.inl (Or.inl (Or.inl (Or.inr h))))
  · exact Or.inl (Or.inl (Or.inr h))
  · exact Or.inr h

theorem slugOut_not_wsU {c : Char} (h : isSlugOut c = true) : isWsU c = false := by
  have hr := slugOut_ranges h
  simp only [isWsU, Bool.or_eq_false_iff, isPyWs, decide_eq_false_iff_not,
    beq_eq_false_iff_ne, ne_eq]
  constructor
  · omega
  · intro hc
    have h95 : c.toNat = 95 := by subst hc; rfl
    omega

theorem hyphen_eq {c : Char} (h : isHyphen c = true) : c = '-' := by
  simpa only [isHyphen, beq_iff_eq] using h

theorem slugOut_of_keep_not_wsU {c : Char} (hk : isSlugKeep c = true)
    (hw : isWsU c = false) : isSlugOut c = true := by
  simp only [isSlugKeep, Bool.or_eq_true] at hk
  simp only [isWsU, Bool.or_eq_false_iff] at hw
  simp only [isSlugOut, Bool.or_eq_true]
  rcases hk with ((((h | h) | h) | h) | h) | h
  · exact Or.inl (Or.inl (Or.inl h))
  · exact Or.inl (Or.inl (Or.inr h))
  · rw [h] at hw; simp at hw
  · exact Or.inl (Or.inr h)
  · rw [hw.2] at h; simp at h
  · exact Or.inr h

/-! ## Supporting lemmas: strip and collapse -/

theorem dropWhile_eq_self_of {p : Char → Bool} {l : List Char}
    (h : ∀ c ∈ l, p c = false) : l.dropWhile p = l := by
  cases l with
  | nil => rfl
  | cons c t =>
    rw [List.dropWhile_cons_of_neg]
    simp [h c (List.mem_cons_self c t)]

theorem pyStripChars_eq_self_of {p : Char → Bool} {l : List Char}
    (h : ∀ c ∈ l, p c = false) : pyStripChars p l = l := by
  unfold pyStripChars dropEndWhile
  rw [dropWhile_eq_self_of h, dropWhile_eq_self_of, List.reverse_reverse]
  intro c hc
  exact h c (List.mem_reverse.mp hc)

theorem mem_of_pyStripChars {p : Char → Bool} {l : List Char} {c : Char}
    (h : c ∈ pyStripChars p l) : c ∈ l := by
  unfold pyStripChars dropEndWhile at h
  have h1 := List.mem_reverse.mp h
  have h2 := (List.dropWhile_sublist _).mem h1
  have h3 := List.mem_reverse.mp h2
  exact (List.dropWhile_sublist _).mem h3

theorem mem_dropWhile_of {p : Char → Bool} {l : List Char} {c : Char}
    (hc : c ∈ l) (hpc : p c = false) : c ∈ l.dropWhile p := by
  induction l with
  | nil => cases hc
  | cons d t ih =>
    by_cases hd : p d = true
    · rw [List.dropWhile_cons_of_pos hd]
      rcases List.mem_cons.mp hc with rfl | hct
      · rw [hd] at hpc; cases hpc
      · exact ih hct
    · rw [List.dropWhile_cons_of_neg hd]
      exact hc

theorem mem_pyStripChars_of {p : Char → Bool} {l : List Char} {c : Char}
    (hc : c ∈ l) (hpc : p c = false) : c ∈ pyStripChars p l := by
  unfold pyStripChars dropEndWhile
  rw [List.mem_reverse]
  exact mem_dropWhile_of (List.mem_reverse.mpr (mem_dropWhile_of hc hpc)) hpc

theorem mem_collapseRuns {p : Char → Bool} {rep : Char} {b : Bool} {l : List Char}
    {c : Char} (h : c ∈ collapseRuns p rep b l) : c = rep ∨ (c ∈ l ∧ p c = false) := by
  induction l generalizing b with
  | nil => cases h
  | cons d t ih =>
    rw [collapseRuns] at h
    by_cases hd : p d = true
    · rw [if_pos hd] at h
      cases b with
      | true =>
        simp only [if_pos rfl] at h
        rcases ih h with hrep | ⟨hm, hp⟩
        · exact Or.inl hrep
        · exact Or.inr ⟨List.mem_cons_of_mem _ hm, hp⟩
      | false =>
        simp only [Bool.false_eq_true, if_neg] at h
        rcases List.mem_cons.mp h with rfl | h2
        · exact Or.inl rfl
        · rcases ih h2 with hrep | ⟨hm, hp⟩
          · exact Or.inl hrep
          · exact Or.inr ⟨List.mem_cons_of_mem _ hm, hp⟩
    · rw [if_neg hd] at h
      rcases List.mem_cons.mp h with rfl | h2
      · exact Or.inr ⟨List.mem_cons_self _ _, Bool.of_not_eq_true hd⟩
      · rcases ih h2 with hrep | ⟨hm, hp⟩
        · exact Or.inl hrep
        · exact Or.inr ⟨List.mem_cons_of_mem _ hm, hp⟩

theorem mem_collapseRuns_of {p : Char → Bool} {rep : Char} {l : List Char}
    {c : Char} (hc : c ∈ l) (hpc : p c = false) (b : Bool) :
    c ∈ collapseRuns p rep b l := by
  induction l generalizing b with
  | nil => cases hc
  | cons d t ih =>
    rw [collapseRuns]
    by_cases hd : p d = true
    · rw [if_pos hd]
      have hct : c ∈ t := by
        rcases List.mem_cons.mp hc with rfl | h2
        · rw [hd] at hpc; cases hpc
        · exact h2
      cases b with
      | true => simpa only [if_pos rfl] using ih hct true
      | false =>
        simp only [Bool.false_eq_true, if_neg]
        exact List.mem_cons_of_mem _ (ih hct true)
    · rw [if_neg hd]
      rcases List.mem_cons.mp hc with rfl | h2
      · exact List.mem_cons_self _ _
      · exact List.mem_cons_of_mem _ (ih h2 false)

theorem collapseRuns_eq_self_of {p : Char → Bool} {rep : Char} {l : List Char}
    (h : ∀ c ∈ l, p c = false) (b : Bool) : collapseRuns p rep b l = l := by
  induction l generalizing b with
  | nil => rfl
  | cons d t ih =>
    rw [collapseRuns, if_neg (by simp [h d (List.mem_cons_self d t)])]
    rw [ih (fun c hc => h c (List.mem_cons_of_mem _ hc)) false]

/-! ## Supporting lemmas: hyphen-run structure of collapse output -/

theorem collapseRuns_hyphen_shape (l : List Char) (b : Bool) :
    (b = true → ∀ c, (collapseRuns isHyphen '-' b l).head? = some c → isHyphen c = false)
      ∧ List.Chain' NoHH (collapseRuns isHyphen '-' b l) := by
  induction l generalizing b with
  | nil =>
    constructor
    · intro _ c hc; cases hc
    · exact List.chain'_nil
  | cons d t ih =>
    rw [collapseRuns]
    by_cases hd : isHyphen d = true
    · rw [if_pos hd]
      cases b with
      | true =>
        simpa only [if_pos rfl] using ih true
      | false =>
        simp only [Bool.false_eq_true, if_false]
        constructor
        · intro habs; cases habs
        · rw [List.chain'_cons']
          refine ⟨?_, (ih true).2⟩
          intro y hy
          exact Or.inr ((ih true).1 rfl y hy)
    · rw [if_neg hd]
      constructor
      · intro _ c hc
        simp only [List.head?_cons, Option.some.injEq] at hc
        subst hc
        exact Bool.of_not_eq_true hd
      · rw [List.chain'_cons']
        refine ⟨?_, (ih false).2⟩
        intro y _
        exact Or.inl (Bool.of_not_eq_true hd)

theorem collapseRuns_eq_self_chain (l : List Char) (b : Bool)
    (hch : List.Chain' NoHH l)
    (hhd : b = true → ∀ c, l.head? = some c → isHyphen c = false) :
    collapseRuns isHyphen '-' b l = l := by
  induction l generalizing b with
  | nil => rfl
  | cons d t ih =>
    rw [collapseRuns]
    by_cases hd : isHyphen d = true
    · cases b with
      | true =>
        have := hhd rfl d (by simp)
        rw [this] at hd; cases hd
      | false =>
        rw [if_pos hd]
        simp only [Bool.false_eq_true, if_false]
        have hdeq := hyphen_eq hd
        rw [List.chain'_cons'] at hch
        rw [ih true hch.2 ?_]
        · rw [hdeq]
        · intro _ c hc
          rcases hch.1 c hc with h1 | h2
          · rw [hd] at h1; cases h1
          · exact h2
    · rw [if_neg hd]
      rw [List.chain'_cons'] at hch
      rw [ih false hch.2 (fun habs => by cases habs)]

/-! ## Supporting lemmas: ends of a stripped list -/

theorem pyStripChars_head {p : Char → Bool} (l : List Char) :
    ∀ c, (pyStripChars p l).head? = some c → p c = false := by
  intro c hc
  unfold pyStripChars dropEndWhile at hc
  rw [List.head?_reverse] at hc
  rcases List.dropWhile_suffix (l := (l.dropWhile p).reverse) (p := p) with ⟨t, ht⟩
  by_cases hwnil : (l.dropWhile p).reverse.dropWhile p = []
  · rw [hwnil] at hc; cases hc
  · have hgl : ((l.dropWhile p).reverse.dropWhile p).getLast?
        = (l.dropWhile p).reverse.getLast? := by
      conv_rhs => rw [← ht]
      exact (List.getLast?_append_of_ne_nil t hwnil).symm
    rw [hgl, List.getLast?_reverse] at hc
    have h := List.head?_dropWhile_not p l
    rw [hc] at h
    simpa using h

theorem pyStripChars_getLast {p : Char → Bool} (l : List Char) :
    ∀ c, (pyStripChars p l).getLast? = some c → p c = false := by
  intro c hc
  unfold pyStripChars dropEndWhile at hc
  rw [List.getLast?_reverse] at hc
  have h := List.head?_dropWhile_not p (l.dropWhile p).reverse
  rw [hc] at h
  simpa using h

theorem NoHH_symm {a b : Char} (h : NoHH a b) : NoHH b a := h.symm

theorem chain_pyStripChars {l : List Char} (h : List.Chain' NoHH l) :
    List.Chain' NoHH (pyStripChars isHyphen l) := by
  unfold pyStripChars dropEndWhile
  have h1 : List.Chain' NoHH (l.dropWhile isHyphen) :=
    h.suffix (List.dropWhile_suffix _)
  have h2 : List.Chain' NoHH (l.dropWhile isHyphen).reverse := by
    rw [List.chain'_reverse]
    exact h1.imp fun _ _ => NoHH_symm
  have h3 : List.Chain' NoHH ((l.dropWhile isHyphen).reverse.dropWhile isHyphen) :=
    h2.suffix (List.dropWhile_suffix _)
  rw [List.chain'_reverse]
  exact h3.imp fun _ _ => NoHH_symm

theorem map_eq_self_of (f : Char → Char) {l : List Char}
    (h : ∀ c ∈ l, f c = c) : l.map f = l := by
  induction l with
  | nil => rfl
  | cons c t ih =>
    rw [List.map_cons, h c (List.mem_cons_self c t),
      ih fun d hd => h d (List.mem_cons_of_mem _ hd)]

/-! ## The output characterization of `slugify` -/

theorem slug_all_out (l : List Char) : ∀ c ∈ slugifyL l, isSlugOut c = true := by
  intro c hc
  unfold slugifyL at hc
  have h4 := mem_of_pyStripChars hc
  rcases mem_collapseRuns h4 with rfl | ⟨h3, hH⟩
  · decide
  · rcases mem_collapseRuns h3 with rfl | ⟨h2, hW⟩
    · decide
    · exact slugOut_of_keep_not_wsU (List.of_mem_filter h2) hW

theorem slug_chain (l : List Char) : List.Chain' NoHH (slugifyL l) := by
  unfold slugifyL
  exact chain_pyStripChars (collapseRuns_hyphen_shape _ false).2

theorem slug_head (l : List Char) :
    ∀ c, (slugifyL l).head? = some c → isHyphen c = false := by
  unfold slugifyL
  exact pyStripChars_head _

theorem slug_getLast (l : List Char) :
    ∀ c, (slugifyL l).getLast? = some c → isHyphen c = false := by
  unfold slugifyL
  exact pyStripChars_getLast _

/-! ## `slugify` is the identity on its own outputs -/

theorem pyStripChars_eq_self_of_ends {p : Char → Bool} {l : List Char}
    (hh : ∀ c, l.head? = some c → p c = false)
    (hl : ∀ c, l.getLast? = some c → p c = false) : pyStripChars p l = l := by
  unfold pyStripChars dropEndWhile
  have h1 : l.dropWhile p = l := by
    cases l with
    | nil => rfl
    | cons c t =>
      rw [List.dropWhile_cons_of_neg]
      simp [hh c (by simp)]
  rw [h1]
  have h2 : l.reverse.dropWhile p = l.reverse := by
    cases hr : l.reverse with
    | nil => rfl
    | cons c t =>
      rw [List.dropWhile_cons_of_neg]
      have : l.reverse.head? = some c := by rw [hr]; rfl
      rw [List.head?_reverse] at this
      simp [hl c this]
  rw [h2, List.reverse_reverse]

theorem slug_fixed {r : List Char}
    (hall : ∀ c ∈ r, isSlugOut c = true)
    (hch : List.Chain' NoHH r)
    (hh : ∀ c, r.head? = some c → isHyphen c = false)
    (hl : ∀ c, r.getLast? = some c → isHyphen c = false) :
    slugifyL r = r := by
  unfold slugifyL
  dsimp only
  rw [pyStripChars_eq_self_of fun c hc => slugOut_not_ws (hall c hc)]
  rw [map_eq_self_of pyLower fun c hc => slugOut_pyLower (hall c hc)]
  rw [List.filter_eq_self.mpr fun c hc => slugOut_keep (hall c hc)]
  rw [collapseRuns_eq_self_of (fun c hc => slugOut_not_wsU (hall c hc)) false]
  rw [collapseRuns_eq_self_chain r false hch (fun habs => by cases habs)]
  exact pyStripChars_eq_self_of_ends hh hl

/-- C4: the composition of lowercasing, character filtering, run collapses
and hyphen trimming performed by `slugify` is a projection:
`slugify (slugify x) = slugify x` for every input string. -/
theorem slugify_idempotent (x : String) : slugify (slugify x) = slugify x := by
  unfold slugify
  exact congrArg String.mk
    (slug_fixed (slug_all_out x.data) (slug_chain x.data)
      (slug_head x.data) (slug_getLast x.data))

/-! ## C1: pruning of ineligible subtrees -/

/-- C1: a directory entry without a case-insensitive readme marker file
(and whose name is not a graphics name, and which is not a reserved
ignored name) contributes nothing: `walk_directory` returns `none` on it
whatever its contents — in particular even when descendant directories do
contain marker files — and the entry loop of the walker leaves its accumulated
node dict and children list unchanged, so neither the directory nor any
node of its subtree ever reaches the manifest. -/
theorem pruning_ineligible_subtree
    (isRoot : Bool) (dirSlug relPath rp : String) (t : Option String)
    (acc : NodeMap × List String) (rest : List FS) (n : String) (cs : List FS)
    (hread : has_readme cs = none)
    (hgfx : is_graphics_dir n = false)
    (hig : should_ignore (FS.dir n cs) = false) :
    walk_directory false rp t n cs = none
    ∧ stepEntry isRoot dirSlug relPath acc (FS.dir n cs) = acc
    ∧ walkEntries isRoot dirSlug relPath acc (FS.dir n cs :: rest)
      = walkEntries isRoot dirSlug relPath acc rest := by
  have hwd : ∀ (rp2 : String) (t2 : Option String),
      walk_directory false rp2 t2 n cs = none := by
    intro rp2 t2
    cases t2
    all_goals simp only [walk_directory, hread]
  have hstep : stepEntry isRoot dirSlug relPath acc (FS.dir n cs) = acc := by
    simp only [stepEntry, hig, hgfx, hwd, Bool.false_eq_true, if_false]
  refine ⟨hwd rp t, hstep, ?_⟩
  simp only [walkEntries]
  rw [hstep]

/-- Witness for C1 at a concrete input: the pruned directory `a` has no
readme marker itself, while its child directory `b` does — the subtree is
dropped regardless. -/
theorem pruning_ineligible_subtree_witness :
    has_readme [FS.dir "b" [FS.file "readme.md"]] = none
    ∧ walk_directory false "a" none "a" [FS.dir "b" [FS.file "readme.md"]] = none
    ∧ stepEntry true "root" "" ([], []) (FS.dir "a" [FS.dir "b" [FS.file "readme.md"]])
      = ([], [])
    ∧ walkEntries true "root" ""
        ([], []) [FS.dir "a" [FS.dir "b" [FS.file "readme.md"]], FS.file "x.md"]
      = walkEntries true "root" "" ([], []) [FS.file "x.md"] :=
  ⟨by decide,
   (pruning_ineligible_subtree true "root" "" "a" none ([], []) [FS.file "x.md"] "a"
      [FS.dir "b" [FS.file "readme.md"]] (by decide) (by decide) (by decide)).1,
   (pruning_ineligible_subtree true "root" "" "a" none ([], []) [FS.file "x.md"] "a"
      [FS.dir "b" [FS.file "readme.md"]] (by decide) (by decide) (by decide)).2.1,
   (pruning_ineligible_subtree true "root" "" "a" none ([], []) [FS.file "x.md"] "a"
      [FS.dir "b" [FS.file "readme.md"]] (by decide) (by decide) (by decide)).2.2⟩

/-! ## C8 (amended): the graphics exemption -/

/-- C8 (amended): a directory whose lowercased name is `graphics` needs no
readme marker: the walker entry step adds a graphics node for it exactly
when it contains at least one file with a recognized image extension, and
silently leaves everything unchanged when it contains none.  (The source
compares `path.name.lower()` with `"graphics"`, so the exemption is
case-insensitive, not restricted to the exact name.) -/
theorem graphics_dir_step
    (isRoot : Bool) (dirSlug relPath : String) (acc : NodeMap × List String)
    (rest : List FS) (n : String) (cs : List FS)
    (hlow : pyStrLower n = "graphics") :
    (let g_slug := if isRoot then "graphics" else dirSlug ++ "/graphics"
     let g_id := make_id g_slug "graphics"
     walkEntries isRoot dirSlug relPath acc (FS.dir n cs :: rest)
       = walkEntries isRoot dirSlug relPath
           (if collect_assets cs = [] then acc
            else
              (aset acc.1 g_id
                (Node.graphics g_id g_slug ("/" ++ g_slug ++ "/") (collect_assets cs)),
               acc.2 ++ [g_id]))
           rest) := by
  have h1 : n ≠ ".DS_Store" := by
    intro h; rw [h] at hlow; exact absurd hlow (by decide)
  have h2 : n ≠ ".obsidian" := by
    intro h; rw [h] at hlow; exact absurd hlow (by decide)
  have h3 : n ≠ ".excalidraw" := by
    intro h; rw [h] at hlow; exact absurd hlow (by decide)
  have hig : should_ignore (FS.dir n cs) = false := by
    simp [should_ignore, IGNORE_FILES, IGNORE_DIRS, FS.name, FS.isDir, h1, h2, h3]
  have hgfx : is_graphics_dir n = true := by
    simp [is_graphics_dir, GRAPHICS_DIR_NAME, hlow]
  dsimp only
  simp only [walkEntries]
  congr 1
  simp only [stepEntry, hig, hgfx, Bool.false_eq_true, if_false, if_true]
  by_cases hass : collect_assets cs = []
  · simp [hass, List.isEmpty_iff]
  · simp only [if_neg hass]
    rw [if_neg]
    simpa [List.isEmpty_iff] using hass

/-- Witness for C8 at a concrete input: a directory named `GRAPHICS`
(case-insensitively `graphics`) with one image, and the node it adds. -/
theorem graphics_dir_step_witness :
    pyStrLower "GRAPHICS" = "graphics"
    ∧ walkEntries true "root" "" ([], [])
        [FS.dir "GRAPHICS" [FS.file "pic.png"], FS.file "readme.md"]
      = walkEntries true "root" ""
          (if collect_assets [FS.file "pic.png"] = [] then ([], [])
           else
             (aset [] (make_id "graphics" "graphics")
               (Node.graphics (make_id "graphics" "graphics") "graphics"
                 ("/" ++ "graphics" ++ "/") (collect_assets [FS.file "pic.png"])),
              [] ++ [make_id "graphics" "graphics"]))
          [FS.file "readme.md"] :=
  ⟨by decide,
   graphics_dir_step true "root" "" ([], []) [FS.file "readme.md"] "GRAPHICS"
     [FS.file "pic.png"] (by decide)⟩

/-- Counterexample to C8 as stated: the exemption is not reserved to the
exact name `graphics` — a directory named `Graphics` (no marker file, one
image) still contributes a graphics node to the manifest. -/
theorem graphics_exact_name_counterexample :
    (generate_manifest "v" [FS.file "readme.md", FS.dir "Graphics" [FS.file "pic.png"]]
        "T").map Manifest.items
      = some [("root-graphics",
                Node.graphics "root-graphics" "graphics" "/graphics/" ["pic.png"]),
              ("root-dir",
                Node.dir "root-dir" "T" "root" "/readme.html" ["root-graphics"])] := by
  have hr : has_readme [FS.file "readme.md", FS.dir "Graphics" [FS.file "pic.png"]]
      = some "readme.md" := rfl
  have hs : sortEntries [FS.file "readme.md", FS.dir "Graphics" [FS.file "pic.png"]]
      = [FS.dir "Graphics" [FS.file "pic.png"], FS.file "readme.md"] := rfl
  simp only [generate_manifest, walk_directory, hr, hs, walkEntries, stepEntry]
  decide

/-! ## C2: file-id collisions -/

theorem splitOnCh_ne_nil (sep : Char) (l : List Char) : splitOnCh sep l ≠ [] := by
  cases l with
  | nil => simp [splitOnCh]
  | cons c rest =>
    rw [splitOnCh]
    rcases hsplit : splitOnCh sep rest with _ | ⟨p, ps⟩
    · simp
    · by_cases hc : (c == sep) = true
      · simp [hc]
      · simp [hc]

theorem splitOnCh_no_sep (sep : Char) (l : List Char) :
    ∀ part ∈ splitOnCh sep l, sep ∉ part := by
  induction l with
  | nil =>
    intro part hp
    simp only [splitOnCh, List.mem_singleton] at hp
    subst hp
    exact List.not_mem_nil sep
  | cons c rest ih =>
    intro part hp
    rw [splitOnCh] at hp
    rcases hsplit : splitOnCh sep rest with _ | ⟨p, ps⟩
    · exact absurd hsplit (splitOnCh_ne_nil sep rest)
    · rw [hsplit] at hp
      dsimp only at hp
      by_cases hc : (c == sep) = true
      · rw [if_pos hc] at hp
        rcases List.mem_cons.mp hp with rfl | hp2
        · exact List.not_mem_nil sep
        · exact ih part (hsplit ▸ hp2)
      · rw [if_neg hc] at hp
        rcases List.mem_cons.mp hp with rfl | hp2
        · intro hmem
          rcases List.mem_cons.mp hmem with rfl | hmem2
          · exact hc (beq_self_eq_true sep)
          · exact ih p (hsplit ▸ List.mem_cons_self p ps) hmem2
        · exact ih part (hsplit ▸ List.mem_cons_of_mem p hp2)

theorem slash_mem_slugifyL {l : List Char} (h : '/' ∈ l) : '/' ∈ slugifyL l := by
  unfold slugifyL
  dsimp only
  have h1 : '/' ∈ pyStripChars isPyWs l :=
    mem_pyStripChars_of h (by decide)
  have h2 : '/' ∈ (pyStripChars isPyWs l).map pyLower := by
    have hm := List.mem_map_of_mem pyLower h1
    have hpl : pyLower '/' = '/' := by decide
    rw [hpl] at hm
    exact hm
  have h3 : '/' ∈ ((pyStripChars isPyWs l).map pyLower).filter isSlugKeep :=
    List.mem_filter.mpr ⟨h2, by decide⟩
  have h4 : '/' ∈ collapseRuns isWsU '-' false
      (((pyStripChars isPyWs l).map pyLower).filter isSlugKeep) :=
    mem_collapseRuns_of h3 (by decide) false
  have h5 : '/' ∈ collapseRuns isHyphen '-' false
      (collapseRuns isWsU '-' false
        (((pyStripChars isPyWs l).map pyLower).filter isSlugKeep)) :=
    mem_collapseRuns_of h4 (by decide) false
  exact mem_pyStripChars_of h5 (by decide)

theorem getLastD_mem_of_ne_nil {L : List (List Char)} (h : L ≠ []) :
    L.getLastD [] ∈ L := by
  rcases L with _ | ⟨a, t⟩
  · exact absurd rfl h
  · rw [List.getLastD]
    exact List.getLast_mem _

theorem headD_mem_of_ne_nil {L : List (List Char)} (h : L ≠ []) :
    L.headD [] ∈ L := by
  rcases L with _ | ⟨a, t⟩
  · exact absurd rfl h
  · exact List.mem_cons_self a t

theorem make_id_file_no_slash (s : String) : '/' ∉ (make_id s "file").data := by
  unfold make_id
  dsimp only
  rw [if_neg (show ¬(("file" : String) = "graphics") from by decide)]
  rw [if_neg (show ¬(("file" : String) = "directory") from by decide)]
  rw [if_neg (show ¬(("file" : String) = "graphics") from by decide)]
  have hparts := splitOnCh_ne_nil '/' (pyStripChars (fun c => c == '/') s.data)
  have hnosep := splitOnCh_no_sep '/' (pyStripChars (fun c => c == '/') s.data)
  by_cases hl : (splitOnCh '/' (pyStripChars (fun c => c == '/') s.data)).getLastD [] ≠ []
  · rw [if_pos hl, String.data_append]
    intro hmem
    rcases List.mem_append.mp hmem with h1 | h2
    · exact hnosep _ (getLastD_mem_of_ne_nil hparts) h1
    · exact absurd h2 (by decide)
  · rw [if_neg hl, String.data_append]
    intro hmem
    rcases List.mem_append.mp hmem with h1 | h2
    · exact hnosep _ (headD_mem_of_ne_nil hparts) h1
    · exact absurd h2 (by decide)

theorem amem_nil (k : String) : amem (α := Node) k [] = false := rfl

theorem aset_nil (k : String) (v : Node) : aset [] k v = [(k, v)] := rfl

theorem amem_single_self (k : String) (v : Node) : amem k [(k, v)] = true := by
  simp [amem]

theorem aset_single_ne {j k : String} {v w : Node} (h : j ≠ k) :
    aset [(j, v)] k w = [(j, v), (k, w)] := by
  simp [aset, amem, h]

/-- The regenerated collision id `slugify(full_slug) + "-file"` of a file
in a non-root directory always differs from `make_id full_slug "file"`:
the former keeps the slash of the full slug, the latter is built from one
slash-free path segment. -/
theorem make_id_ne_regenerated (dirSlug b : String) :
    make_id (dirSlug ++ "/" ++ b) "file" ≠ slugify (dirSlug ++ "/" ++ b) ++ "-file" := by
  intro h
  have hmem : '/' ∈ (slugify (dirSlug ++ "/" ++ b) ++ "-file").data := by
    rw [String.data_append]
    apply List.mem_append.mpr
    left
    show '/' ∈ slugifyL (dirSlug ++ "/" ++ b).data
    apply slash_mem_slugifyL
    rw [String.data_append, String.data_append]
    exact List.mem_append.mpr (Or.inl (List.mem_append.mpr (Or.inr (by decide))))
  rw [← h] at hmem
  exact make_id_file_no_slash _ hmem

/-- C2 (amended): in a non-root directory, two markdown files whose names
slugify to the same base both end up in the accumulated node dict under
distinct ids, the second one under the regenerated id
`slugify(full_slug) + "-file"` (at the vault root the regenerated id
coincides with the original one and the second file overwrites the
first — see the counterexample). -/
theorem file_id_collision_nonroot
    (dirSlug relPath n1 n2 : String)
    (hig1 : should_ignore (FS.file n1) = false)
    (hig2 : should_ignore (FS.file n2) = false)
    (hmd1 : pyStrLower (pySuffix n1) = ".md")
    (hmd2 : pyStrLower (pySuffix n2) = ".md")
    (hrd1 : pyStrLower n1 ≠ "readme.md")
    (hrd2 : pyStrLower n2 ≠ "readme.md")
    (hslug : slugify (pyStem n2) = slugify (pyStem n1)) :
    (let fs := dirSlug ++ "/" ++ slugify (pyStem n1)
     let id1 := make_id fs "file"
     let id2 := slugify fs ++ "-file"
     id1 ≠ id2
     ∧ walkEntries false dirSlug relPath ([], []) [FS.file n1, FS.file n2]
       = ([(id1, Node.file id1 (make_title (pyStem n1)) fs ("/" ++ fs ++ ".html")),
           (id2, Node.file id2 (make_title (pyStem n2)) fs ("/" ++ fs ++ ".html"))],
          [id1, id2])) := by
  dsimp only
  refine ⟨make_id_ne_regenerated dirSlug (slugify (pyStem n1)), ?_⟩
  have hb1 : (pyStrLower (pySuffix n1) == ".md") = true := by
    rw [hmd1]; decide
  have hb2 : (pyStrLower (pySuffix n2) == ".md") = true := by
    rw [hmd2]; decide
  have hbr1 : (pyStrLower n1 == "readme.md") = false := beq_eq_false_iff_ne.mpr hrd1
  have hbr2 : (pyStrLower n2 == "readme.md") = false := beq_eq_false_iff_ne.mpr hrd2
  have hfid := make_id_ne_regenerated dirSlug (slugify (pyStem n1))
  simp only [walkEntries]
  simp only [stepEntry, hig1, hig2, hb1, hb2, hbr1, hbr2, Bool.false_eq_true, if_false,
    if_true, hslug]
  simp only [amem_nil, Bool.false_eq_true, if_false, aset_nil, List.nil_append,
    amem_single_self, if_true, aset_single_ne hfid, List.singleton_append,
    List.cons_append, List.nil_append]

/-- Witness for the amended C2 at a concrete input: files `Foo!.md` and
`foo.md` in a non-root directory with slug `d`. -/
theorem file_id_collision_nonroot_witness :
    (let fs := "d" ++ "/" ++ slugify (pyStem "Foo!.md")
     let id1 := make_id fs "file"
     let id2 := slugify fs ++ "-file"
     id1 ≠ id2
     ∧ walkEntries false "d" "d" ([], []) [FS.file "Foo!.md", FS.file "foo.md"]
       = ([(id1, Node.file id1 (make_title (pyStem "Foo!.md")) fs ("/" ++ fs ++ ".html")),
           (id2, Node.file id2 (make_title (pyStem "foo.md")) fs ("/" ++ fs ++ ".html"))],
          [id1, id2])) :=
  file_id_collision_nonroot "d" "d" "Foo!.md" "foo.md" (by decide) (by decide)
    (by decide) (by decide) (by decide) (by decide) (by decide)

/-- Counterexample to C2 as stated: at the vault root, `Foo!.md` and
`foo.md` both slugify to base `foo`; the regenerated id
`slugify("foo") + "-file"` equals the original `foo-file`, so the second
file overwrites the first — the manifest holds one file node (title
`Foo`, from `foo.md`), not two nodes with distinct ids, and the children
list of the root repeats the id. -/
theorem file_id_collision_root_counterexample :
    generate_manifest "v" [FS.file "readme.md", FS.file "Foo!.md", FS.file "foo.md"] "T"
      = some ⟨"root-dir",
          [("foo-file", Node.file "foo-file" "Foo" "foo" "/foo.html"),
           ("root-dir",
             Node.dir "root-dir" "T" "root" "/readme.html" ["foo-file", "foo-file"])]⟩ := by
  have hr : has_readme [FS.file "readme.md", FS.file "Foo!.md", FS.file "foo.md"]
      = some "readme.md" := rfl
  have hs : sortEntries [FS.file "readme.md", FS.file "Foo!.md", FS.file "foo.md"]
      = [FS.file "Foo!.md", FS.file "foo.md", FS.file "readme.md"] := rfl
  simp only [generate_manifest, walk_directory, hr, hs, walkEntries, stepEntry]
  decide

/-- C3: for every manifest-built index pair and every target,
`resolve_wiki_link` tries, in this exact order: (1) the target (after
splitting off an optional pipe display override) with spaces replaced by
hyphens and case-folded, as a slug-index key; (2) a case-insensitive
title-index lookup that succeeds only when exactly one node bears that
title, multiple matches falling through; (3) the fully slugified target
as a slug-index key; (4) otherwise the broken-link fallback `#` with the
override or the cleaned raw target as display — it is a total function
and never fails. -/
theorem resolve_wiki_link_order (m : Manifest) (target : String) :
    (let ti := build_title_index m
     let si := build_slug_index m
     let display : Option String :=
       if target.data.contains '|' then some ⟨(breakAtCh '|' target.data).2⟩ else none
     let tpart : String :=
       if target.data.contains '|' then ⟨(breakAtCh '|' target.data).1⟩ else target
     let tclean := pyStrip tpart
     let skey := pyStrLower ⟨tclean.data.map fun c => if c == ' ' then '-' else c⟩
     (∀ node, alookup skey si = some node →
        resolve_wiki_link target ti si = (node.content_path, pyOrDisplay display node.titleGet))
     ∧ (alookup skey si = none →
        ∀ node, alookup (pyStrLower tclean) ti = some [node] →
          resolve_wiki_link target ti si = (node.content_path, pyOrDisplay display node.titleGet))
     ∧ (alookup skey si = none →
        (∀ nodes, alookup (pyStrLower tclean) ti = some nodes → nodes.length ≠ 1) →
        ∀ node, alookup (slugify tclean) si = some node →
          resolve_wiki_link target ti si = (node.content_path, pyOrDisplay display node.titleGet))
     ∧ (alookup skey si = none →
        (∀ nodes, alookup (pyStrLower tclean) ti = some nodes → nodes.length ≠ 1) →
        alookup (slugify tclean) si = none →
          resolve_wiki_link target ti si = ("#", pyOrDisplay display tclean))) := by
  dsimp only
  refine ⟨?_, ?_, ?_, ?_⟩
  · intro node h1
    simp only [resolve_wiki_link, apply_ite Prod.fst, apply_ite Prod.snd]
    rw [h1]
  · intro h0 node h2
    simp only [resolve_wiki_link, apply_ite Prod.fst, apply_ite Prod.snd]
    rw [h0, h2]
  · intro h0 ht node h3
    simp only [resolve_wiki_link, apply_ite Prod.fst, apply_ite Prod.snd]
    rw [h0, h3]
    rcases hti : alookup (pyStrLower (pyStrip
        (if target.data.contains '|' then
          (⟨(breakAtCh '|' target.data).1⟩ : String) else target)))
        (build_title_index m) with _ | nodes
    · rfl
    · rcases nodes with _ | ⟨x, t⟩
      · rfl
      · rcases t with _ | ⟨y, t2⟩
        · exact absurd rfl (ht [x] hti)
        · rfl
  · intro h0 ht h4
    simp only [resolve_wiki_link, apply_ite Prod.fst, apply_ite Prod.snd]
    rw [h0, h4]
    rcases hti : alookup (pyStrLower (pyStrip
        (if target.data.contains '|' then
          (⟨(breakAtCh '|' target.data).1⟩ : String) else target)))
        (build_title_index m) with _ | nodes
    · rfl
    · rcases nodes with _ | ⟨x, t⟩
      · rfl
      · rcases t with _ | ⟨y, t2⟩
        · exact absurd rfl (ht [x] hti)
        · rfl

/-- Witness for C3 at a concrete input: a single-node manifest, resolved
through the literal-slug strategy. -/
theorem resolve_wiki_link_order_witness :
    resolve_wiki_link "a/b"
        (build_title_index ⟨"rid", [("n1", Node.file "n1" "Widget" "a/b" "/a/b.html")]⟩)
        (build_slug_index ⟨"rid", [("n1", Node.file "n1" "Widget" "a/b" "/a/b.html")]⟩)
      = ("/a/b.html", "Widget") :=
  (resolve_wiki_link_order ⟨"rid", [("n1", Node.file "n1" "Widget" "a/b" "/a/b.html")]⟩
      "a/b").1 (Node.file "n1" "Widget" "a/b" "/a/b.html") (by decide)

/-! ## C7: image-embed resolution is total -/

/-- C7: `resolve_image_embed` always returns a path.  After stripping
surrounding whitespace and any directory prefix, a hit in the asset index
yields the indexed content-path prefix plus the basename, and a miss
yields the fixed default route `/graphics/` plus the basename. -/
theorem resolve_image_embed_total (filename : String)
    (asset_index : List (String × String)) :
    (let b : String :=
       if (pyStrip filename).data.contains '/' then ⟨afterLastSlash (pyStrip filename).data⟩
       else pyStrip filename
     (∀ pfx, alookup b asset_index = some pfx →
        resolve_image_embed filename asset_index = pfx ++ b)
     ∧ (alookup b asset_index = none →
        resolve_image_embed filename asset_index = "/graphics/" ++ b)) := by
  dsimp only
  constructor
  · intro pfx h
    simp only [resolve_image_embed]
    rw [h]
  · intro h
    simp only [resolve_image_embed]
    rw [h]

/-- Witness for C7 at concrete inputs: a miss falls back to the default
graphics route, and a hit uses the owning prefix. -/
theorem resolve_image_embed_total_witness :
    resolve_image_embed "missing.png" [] = "/graphics/" ++ "missing.png"
    ∧ resolve_image_embed "graphics/ani3.gif" [("ani3.gif", "/graphics/")]
      = "/graphics/" ++ "ani3.gif" :=
  ⟨(resolve_image_embed_total "missing.png" []).2 (by decide),
   (resolve_image_embed_total "graphics/ani3.gif" [("ani3.gif", "/graphics/")]).1
     "/graphics/" (by decide)⟩

/-! ## C10: an empty display override is ignored -/

/-- C10: for a pipe-free target `x`, resolving `x ++ "|"` (an empty
display override) gives exactly the same result as resolving `x` with no
override: the display text falls back to the title of the resolved node, or to
the cleaned target on the broken-link fallback — never to the empty
string written after the pipe. -/
theorem breakAtCh_append_sep {l : List Char} (h : '|' ∉ l) :
    breakAtCh '|' (l ++ ['|']) = (l, []) := by
  induction l with
  | nil => rfl
  | cons c t ih =>
    rw [List.cons_append, breakAtCh]
    rw [if_neg ?hcne]
    case hcne =>
      simp only [beq_iff_eq]
      intro hc
      subst hc
      exact h (List.mem_cons_self _ _)
    rw [ih fun hm => h (List.mem_cons_of_mem c hm)]

theorem resolve_wiki_link_empty_display (ti : List (String × List Node))
    (si : List (String × Node)) (x : String) (hx : '|' ∉ x.data) :
    resolve_wiki_link (x ++ "|") ti si = resolve_wiki_link x ti si := by
  have hsplit : breakAtCh '|' (x ++ "|").data = (x.data, []) := by
    rw [String.data_append]
    exact breakAtCh_append_sep hx
  have hc1 : ((x ++ "|").data.contains '|') = true := by
    rw [String.data_append]
    have hm : '|' ∈ x.data ++ ['|'] := List.mem_append.mpr (Or.inr (by decide))
    exact List.elem_iff.mpr hm
  have hc2 : (x.data.contains '|') = false := by
    rcases hcc : x.data.contains '|' with _ | _
    · rfl
    · exact absurd (List.elem_iff.mp hcc) hx
  have hxeta : (⟨x.data⟩ : String) = x := rfl
  have hdisp : ∀ y : String, pyOrDisplay (some ⟨([] : List Char)⟩) y = pyOrDisplay none y :=
    fun y => rfl
  simp only [resolve_wiki_link, apply_ite Prod.fst, apply_ite Prod.snd, hc1, hc2, if_true,
    Bool.false_eq_true, if_false, hsplit, hxeta, hdisp]

/-- Witness for C10 at a concrete input. -/
theorem resolve_wiki_link_empty_display_witness :
    resolve_wiki_link ("Widget" ++ "|") [] [] = resolve_wiki_link "Widget" [] [] :=
  resolve_wiki_link_empty_display [] [] "Widget" (by decide)

/-! ## C9: front-matter extraction is atomic on failure -/

/-- C9: `extract_frontmatter` strips front matter from the body only when
the delimiter regex matches and the external YAML parser returns a dict:
with no match, a parse error, or a non-dict value, the result is exactly
`({}, original text)` with the body byte-identical to the input; on a
dict the metadata is the normalised dict and the body is the text after
the matched block. -/
theorem extract_frontmatter_atomic (parse : String → YamlResult) (text : String) :
    (fmMatch text.data = none → extract_frontmatter parse text = ([], text))
    ∧ (∀ g body, fmMatch text.data = some (g, body) →
        (parse ⟨g⟩ = .err → extract_frontmatter parse text = ([], text))
        ∧ (∀ v, parse ⟨g⟩ = .val v →
            (∀ kvs, v = .dict kvs →
              extract_frontmatter parse text = (normaliseKVs kvs, ⟨body⟩))
            ∧ ((∀ kvs, v ≠ .dict kvs) →
              extract_frontmatter parse text = ([], text)))) := by
  constructor
  · intro h
    simp only [extract_frontmatter, h]
  · intro g body hm
    constructor
    · intro herr
      simp only [extract_frontmatter, hm, herr]
    · intro v hval
      constructor
      · intro kvs hdict
        subst hdict
        simp only [extract_frontmatter, hm, hval]
      · intro hnd
        simp only [extract_frontmatter, hm, hval, hnd]

/-- Witness for C9 at concrete inputs: a matching front-matter block with
an erroring parser returns the original text unchanged; a dict parse
strips the block. -/
theorem extract_frontmatter_atomic_witness :
    extract_frontmatter (fun _ => YamlResult.err) "---\na: 1\n---\nB"
      = ([], "---\na: 1\n---\nB")
    ∧ extract_frontmatter (fun _ => YamlResult.val (Yaml.dict [("a", Yaml.int 1)]))
        "---\na: 1\n---\nB"
      = ([("a", Yaml.int 1)], "B") :=
  ⟨((extract_frontmatter_atomic (fun _ => YamlResult.err) "---\na: 1\n---\nB").2
      "a: 1\n".data "B".data (by decide)).1 (by rfl),
   (((extract_frontmatter_atomic (fun _ => YamlResult.val (Yaml.dict [("a", Yaml.int 1)]))
      "---\na: 1\n---\nB").2 "a: 1\n".data "B".data (by decide)).2
      (Yaml.dict [("a", Yaml.int 1)]) (by rfl)).1 [("a", Yaml.int 1)] rfl⟩

/-! ## C5: the sanitization pass -/

set_option maxRecDepth 8000

/-- C5 (amended): on the example fragments of the spec the single-pass
sanitizer removes a well-formed `<script>...</script>` element and a
quoted `onclick` attribute, while a code block whose displayed source is
the literal `<script>` survives the pass intact, HTML-escaped inside its
container (the pass is a single textual scan, so only paired, well-formed
occurrences are removed — see the counterexample for an unclosed tag). -/
theorem sanitize_examples :
    sanitize_html "<p><script>alert(1)</script></p>" = "<p></p>"
    ∧ sanitize_html "<p onclick=\"alert(1)\">hi</p>" = "<p>hi</p>"
    ∧ containsSub "onclick".data (sanitize_html "<p onclick=\"alert(1)\">hi</p>").data = false
    ∧ containsSub "&lt;script&gt;".data (block_code "<script>" none).data = true
    ∧ containsSub "<script".data (block_code "<script>" none).data = false
    ∧ sanitize_html (block_code "<script>" none) = block_code "<script>" none := by
  refine ⟨by decide, by decide, by decide, by decide, by decide, by decide⟩

/-- Counterexample to C5 as stated: the script pattern of the sanitizer needs a
closing `</script>`; the rendered HTML of the markdown document
`<script>alert(1)` (an unclosed raw HTML block, passed through verbatim)
survives the pass, so the output does contain a `<script>` element. -/
theorem sanitize_unclosed_script_counterexample :
    sanitize_html "<script>alert(1)\n" = "<script>alert(1)\n"
    ∧ containsSub "<script>".data (sanitize_html "<script>alert(1)\n").data = true := by
  refine ⟨by decide, by decide⟩

/-! ## C6: heading-anchor deduplication scope -/

/-- C6: the heading-id counter dict is created once per parser (once per
run), not per document.  Rendering the first heading `A` of one document
from the empty counter yields id `a`; rendering the identically named
first heading of a second document with the counter carried over from the
first — which is what the shared parser does — yields id `a-1`, not `a`:
the later document inherits the counter of the previous document. -/
theorem heading_counter_persists_across_documents :
    (heading [] "A" 1).1
      = "<h1 id=\"a\"><a class=\"heading-anchor\" href=\"#a\" data-link>A</a></h1>\n"
    ∧ (heading (heading [] "A" 1).2 "A" 1).1
      = "<h1 id=\"a-1\"><a class=\"heading-anchor\" href=\"#a-1\" data-link>A</a></h1>\n"
    ∧ (heading [] "A" 1).2 = [("a", 0)] := by
  refine ⟨by decide, by decide, by decide⟩
